import Mathlib

/-!
Verification of the A3C implementation in src/algorithms/a3c.py and
src/algorithms/a3c_conv.py.

The repository implements Asynchronous Advantage Actor-Critic: worker
processes collect (state, action, reward) trajectories, convert them to
bootstrapped discounted returns, compute an actor-critic loss on a local
network copy, transplant the local gradients into a shared network, step a
shared optimizer and copy the shared parameters back.  The definitions below
are shallow embeddings of those code paths; machine-learning tensor contents
are represented by rationals and the opaque neural network forward pass is
passed in as a function argument where needed.
-/

/-! ## Return estimator (A3C.sync, a3c.py lines 230-242 / a3c_conv.py 299-310)

The Python loop is:
  R = 0. if done else V(new_state)
  buffer_v_target = []
  for r in buffer_reward[::-1]:
      R = r + gamma * R
      buffer_v_target.append(R)
  buffer_v_target.reverse()
-/

/-- The body of the Python for-loop: walking the (already reversed) reward
list, producing the successive values of R in production order. -/
def loopAppend (gamma : ℚ) : ℚ → List ℚ → List ℚ
  | _, [] => []
  | R, r :: rest => (r + gamma * R) :: loopAppend gamma (r + gamma * R) rest

/-- The return-estimator loop of A3C.sync given the initial bootstrap value B:
iterate over the reversed reward buffer, then reverse the produced list. -/
def computeReturnsB (gamma B : ℚ) (br : List ℚ) : List ℚ :=
  (loopAppend gamma B br.reverse).reverse

/-- The return estimator exactly as in A3C.sync: R starts at 0 for a terminal
state and at the bootstrap value V otherwise. -/
def computeReturns (gamma : ℚ) (done : Bool) (V : ℚ) (br : List ℚ) : List ℚ :=
  computeReturnsB gamma (if done then 0 else V) br

/-- Mathematical recurrence for the head return value of a reward list with
bootstrap B at the end. -/
def Rval (gamma B : ℚ) : List ℚ → ℚ
  | [] => B
  | r :: rs => r + gamma * Rval gamma B rs

/-- Recursive specification of the whole return sequence: element i is the
head return of the suffix starting at i. -/
def returnsSpec (gamma B : ℚ) : List ℚ → List ℚ
  | [] => []
  | r :: rs => Rval gamma B (r :: rs) :: returnsSpec gamma B rs

/-! ## Loss function (Model.loss_func, a3c.py lines 42-53 / a3c_conv.py 61-75)

The network forward pass is opaque (an external differentiable function), so
its outputs — the predicted values and the log-probabilities of the taken
actions — enter the embedding as inputs.  To capture the autodiff semantics
of torch's detach, scalars carry a dual (value, derivative) component:
detach keeps the value and zeroes the derivative. -/

/-- A scalar of the autodiff tape: (value, derivative along a chosen
perturbation direction of the network parameters). -/
def Dual : Type := ℚ × ℚ

def dadd (x y : Dual) : Dual := (x.1 + y.1, x.2 + y.2)

def dmul (x y : Dual) : Dual := (x.1 * y.1, x.1 * y.2 + x.2 * y.1)

def dneg (x : Dual) : Dual := (-x.1, -x.2)

def dsub (x y : Dual) : Dual := dadd x (dneg y)

/-- A constant of the tape (the target returns v_t do not depend on the
network parameters). -/
def dconst (q : ℚ) : Dual := (q, 0)

/-- torch detach: value kept, gradient contribution blocked. -/
def detach (x : Dual) : Dual := (x.1, 0)

def dsum : List Dual → Dual
  | [] => (0, 0)
  | x :: xs => dadd x (dsum xs)

/-- .mean() of a batch of tape scalars. -/
def dmean (l : List Dual) : Dual :=
  ((dsum l).1 / l.length, (dsum l).2 / l.length)

/-- Model.loss_func of a3c.py: td = v_t - values; c_loss = td.pow(2);
exp_v = log_prob(a) * td.detach(); a_loss = -exp_v;
total_loss = (c_loss + a_loss).mean(). -/
def loss_func (values logps : List Dual) (v_t : List ℚ) : Dual :=
  let td := List.zipWith (fun t v => dsub (dconst t) v) v_t values
  let c_loss := td.map (fun x => dmul x x)
  let exp_v := List.zipWith (fun lp x => dmul lp (detach x)) logps td
  let a_loss := exp_v.map dneg
  dmean (List.zipWith dadd c_loss a_loss)

/-- Three-list pointwise combination, used to state the closed form of the
loss over a batch. -/
def zip3 {α β γ δ : Type} (f : α → β → γ → δ) : List α → List β → List γ → List δ
  | a :: as, b :: bs, c :: cs => f a b c :: zip3 f as bs cs
  | _, _, _ => []

/-- The advantage of one batch element: target return minus predicted value. -/
def advTerm (t : ℚ) (v : Dual) : ℚ := t - v.1

/-- Closed-form value of one batch element's loss contribution:
advantage squared (value loss) plus -log_prob * advantage (policy loss). -/
def lossVal (t : ℚ) (v lp : Dual) : ℚ :=
  advTerm t v ^ 2 - lp.1 * advTerm t v

/-- Closed-form derivative of one batch element's loss contribution: the
value-loss part differentiates through the advantage (-2 * advantage * v.2),
while the policy part sees the advantage as a constant — only the
log-probability derivative lp.2 appears, scaled by the (detached)
advantage. -/
def lossDeriv (t : ℚ) (v lp : Dual) : ℚ :=
  -(2 * advTerm t v * v.2) - lp.2 * advTerm t v

/-! ## Plain-valued conv loss and the synchronization call
(A3C.sync, a3c.py lines 230-258 / a3c_conv.py 289-329) -/

/-- Mean of a list of rationals, as tensor .mean() on a batch. -/
def qmean (l : List ℚ) : ℚ := l.sum / l.length

/-- advantage = target_values - values (a3c_conv.py line 65). -/
def advantages (targets values : List ℚ) : List ℚ :=
  List.zipWith (fun t v => t - v) targets values

/-- value_loss = advantage.pow(2) (a3c_conv.py line 66). -/
def valueLosses (targets values : List ℚ) : List ℚ :=
  (advantages targets values).map (fun a => a * a)

/-- policy_loss = -(log_prob(actions) * advantage.detach()) (a3c_conv.py
lines 70-71); detach does not change the value. -/
def policyLosses (logps targets values : List ℚ) : List ℚ :=
  List.zipWith (fun lp a => -(lp * a)) logps (advantages targets values)

/-- total_loss = (value_loss + policy_loss).mean() (a3c_conv.py line 72). -/
def totalLoss (values logps targets : List ℚ) : ℚ :=
  qmean (List.zipWith (fun a b => a + b) (valueLosses targets values)
    (policyLosses logps targets values))

/-- Model.loss_func of a3c_conv.py returns
(total_loss, value_loss.mean(), policy_loss.mean(), advantage.mean()). -/
def loss_func_conv (values logps targets : List ℚ) : ℚ × ℚ × ℚ × ℚ :=
  (totalLoss values logps targets,
   qmean (valueLosses targets values),
   qmean (policyLosses logps targets values),
   qmean (advantages targets values))

/-- The parameter state touched by A3C.sync: the worker's local network
parameters, the shared network parameters and the shared gradient slots,
each flattened to a list of scalars. -/
structure SyncSt where
  localParams : List ℚ
  sharedParams : List ℚ
  sharedGrads : List ℚ

/-- Steps 4-7 of A3C.sync (both variants, a3c.py lines 250-258):
optimizer.zero_grad(); loss.backward() — the gradient computation is the
opaque argument already performed by the caller —; gp._grad = lp.grad for
every parameter pair; optimizer.step() — the shared update rule is the
opaque optStep —; local_network.load_state_dict(global_network.state_dict()).
-/
def syncShared (optStep : List ℚ → List ℚ → List ℚ) (grads : List ℚ)
    (st : SyncSt) : SyncSt :=
  let zeroed := st.sharedGrads.map (fun _ => (0 : ℚ))
  let transplanted := zeroed.zipWith (fun _ g => g) grads
  let shared' := optStep st.sharedParams transplanted
  { localParams := shared', sharedParams := shared', sharedGrads := transplanted }

/-- The per-call inputs of A3C.sync: terminal flag, the bootstrap value
produced by the local network on the new state (opaque forward pass), the
reward buffer, and the local network outputs on the buffered states. -/
structure SyncInput where
  done : Bool
  bootstrapV : ℚ
  rewards : List ℚ
  values : List ℚ
  logps : List ℚ

/-- R = 0. if done else V(new_state) (a3c.py lines 232-235). -/
def bootstrapR (inp : SyncInput) : ℚ := if inp.done then 0 else inp.bootstrapV

/-- A3C.sync of a3c.py: computes the targets and the loss, performs the
shared update, and falls off the end of the function — Python returns None,
so the result component is none. -/
def syncBasic (gamma : ℚ) (computeGrad : ℚ → List ℚ → List ℚ)
    (optStep : List ℚ → List ℚ → List ℚ) (inp : SyncInput) (st : SyncSt) :
    SyncSt × Option ℚ :=
  let targets := computeReturnsB gamma (bootstrapR inp) inp.rewards
  let loss := totalLoss inp.values inp.logps targets
  let grads := computeGrad loss st.localParams
  (syncShared optStep grads st, none)

/-- A3C.sync of a3c_conv.py: same update, but returns
(loss.detach(), mean_value_loss, mean_policy_loss, mean_advantage). -/
def syncConv (gamma : ℚ) (computeGrad : ℚ → List ℚ → List ℚ)
    (optStep : List ℚ → List ℚ → List ℚ) (inp : SyncInput) (st : SyncSt) :
    SyncSt × (ℚ × ℚ × ℚ × ℚ) :=
  let targets := computeReturnsB gamma (bootstrapR inp) inp.rewards
  let pieces := loss_func_conv inp.values inp.logps targets
  let grads := computeGrad pieces.1 st.localParams
  (syncShared optStep grads st, pieces)

/-! ## Worker interaction loop (Worker.run, a3c.py lines 95-132) -/

/-- The action index actually passed to env.step:
action if action < n_actions else 0 (a3c.py line 109 / a3c_conv.py 140). -/
def actionSentToEnv (action n_actions : ℕ) : ℕ :=
  if action < n_actions then action else 0

/-- One recorded call into the synchronization callback: the done flag, the
length of the trajectory buffers at the call, and the episode step at which
it happened. -/
structure SyncEvent where
  done : Bool
  bufLen : ℕ
  atStep : ℕ
deriving DecidableEq

/-- The worker's episode-loop state: current environment state, the
trajectory buffer of (state, action, reward) triples, the global thread
step counter t, the episode step counter T - Tstart, the accumulated episode
reward, and the trace of synchronization calls made so far. -/
structure EpState (σ : Type) where
  state : σ
  buffer : List (σ × ℕ × ℚ)
  thread_step : ℕ
  episode_step : ℕ
  episode_reward : ℚ
  syncEvents : List SyncEvent

/-- The inner while-loop of Worker.run (a3c.py lines 104-128), with fuel =
max_length - episode_step remaining iterations.  Each iteration chooses an
action, steps the environment with the clamped action, overrides the reward
with -1 on done, appends to the buffers, and on step alignment or done calls
the synchronization callback and clears the buffers, breaking on done. -/
def runLoop {σ : Type} (env : σ → ℕ → σ × ℚ × Bool) (policy : σ → ℕ)
    (delay n_actions : ℕ) : ℕ → EpState σ → EpState σ
  | 0, st => st
  | fuel + 1, st =>
    let action := policy st.state
    let stepRes := env st.state (actionSentToEnv action n_actions)
    let done := stepRes.2.2
    let r : ℚ := if done then -1 else stepRes.2.1
    let buf := st.buffer ++ [(st.state, action, r)]
    let reward := st.episode_reward + r
    if st.thread_step % delay == 0 || done then
      let st' : EpState σ :=
        { state := stepRes.1, buffer := [], thread_step := st.thread_step,
          episode_step := st.episode_step, episode_reward := reward,
          syncEvents := st.syncEvents ++ [⟨done, buf.length, st.episode_step⟩] }
      if done then st'
      else runLoop env policy delay n_actions fuel
        { st' with thread_step := st.thread_step + 1,
                   episode_step := st.episode_step + 1 }
    else
      runLoop env policy delay n_actions fuel
        { state := stepRes.1, buffer := buf, thread_step := st.thread_step + 1,
          episode_step := st.episode_step + 1, episode_reward := reward,
          syncEvents := st.syncEvents }

/-- One episode of Worker.run: fresh buffers, episode_step = 0, starting
state from env.reset(), carrying in the thread step counter. -/
def runEpisode {σ : Type} (env : σ → ℕ → σ × ℚ × Bool) (policy : σ → ℕ)
    (delay n_actions max_length : ℕ) (s0 : σ) (t0 : ℕ) : EpState σ :=
  runLoop env policy delay n_actions max_length ⟨s0, [], t0, 0, 0, []⟩

/-- One entry put on the results queue by A3C.checkpoint (a3c.py
lines 269-274). -/
structure ResultRecord where
  reward : ℚ
  episode_length : ℕ
deriving DecidableEq

/-- A3C.checkpoint (a3c.py lines 260-274): increments the global episode
counter under its lock, overwrites the global reward, and puts one record on
the results queue. -/
def checkpoint (counter : ℕ) (queue : List ResultRecord) (reward : ℚ)
    (len : ℕ) : ℕ × List ResultRecord :=
  (counter + 1, queue ++ [⟨reward, len⟩])

/-- One outer-loop iteration of Worker.run: run the episode loop, then call
the checkpoint callback — unconditionally, whatever ended the episode
(a3c.py lines 100-130). -/
def workerEpisodeStep {σ : Type} (env : σ → ℕ → σ × ℚ × Bool)
    (policy : σ → ℕ) (delay n_actions max_length : ℕ) (s0 : σ) (t0 : ℕ)
    (counter : ℕ) (queue : List ResultRecord) :
    EpState σ × ℕ × List ResultRecord :=
  let es := runEpisode env policy delay n_actions max_length s0 t0
  let cq := checkpoint counter queue es.episode_reward es.episode_step
  (es, cq.1, cq.2)

/-! ## Coordinator result-draining loop (A3C.run, a3c.py lines 215-228 /
a3c_conv.py 264-286): r = res_queue.get(); record it if it is not None,
break otherwise. -/

/-- The drain loop over the stream of queue items in arrival order: a some
item is recorded and the loop continues; a none item (a worker's shutdown
sentinel) breaks the loop.  Returns the recorded items and how many
sentinels were dequeued. -/
def drainLoop {R : Type} : List (Option R) → List R × ℕ
  | [] => ([], 0)
  | some r :: rest =>
      let p := drainLoop rest
      (r :: p.1, p.2)
  | none :: _ => ([], 1)

/-! ## Shared-update interleaving model (A3C.sync steps 4-6, a3c.py
lines 250-255 / a3c_conv.py 319-324)

The code performs optimizer.zero_grad(), loss.backward(), the gradient
transplant loop, and optimizer.step() with no lock of any kind around them.
The shared optimizer lives in utils (not under src); per the spec it keeps
per-parameter statistics and a step count in process-shared memory, and
concurrent unlocked steps can produce lost updates, so its step-count update
is modelled as an unguarded read-modify-write. -/

/-- The primitive operations of one synchronization call's shared-update
section.  acquire and release exist so that lock-guardedness is expressible;
the code's op sequence contains neither. -/
inductive SyncOp where
  | acquire
  | release
  | zeroGrad
  | backward
  | transplant
  | readStep
  | writeStep
deriving DecidableEq

/-- The shared-update section of A3C.sync as written: zero_grad, backward,
the transplant loop, then the optimizer step.
Modelled from the spec: utils.SharedRMSprop is not under src; the spec's
SharedOptimizerState keeps a step count whose unlocked update is a
read-modify-write on shared memory, here readStep followed by writeStep.
No lock operation appears, matching the lock-free code. -/
def syncUpdateOps : List SyncOp :=
  [SyncOp.zeroGrad, SyncOp.backward, SyncOp.transplant,
   SyncOp.readStep, SyncOp.writeStep]

/-- Modelled from the spec: steps 4-6 are guarded by a single lock when the
op sequence opens by acquiring it and closes by releasing it. -/
def guardedByLock (ops : List SyncOp) : Prop :=
  ops.head? = some SyncOp.acquire ∧ ops.getLast? = some SyncOp.release

/-- M back-to-back synchronization calls by one worker. -/
def repProg : ℕ → List SyncOp
  | 0 => []
  | M + 1 => syncUpdateOps ++ repProg M

/-- M back-to-back synchronization calls by one worker, tagged with the
worker index: the exact operation sequence that worker contributes to any
interleaving. -/
def workerEvents (w M : ℕ) : List (ℕ × SyncOp) :=
  (repProg M).map (fun op => (w, op))

/-- Shared state of the step counter model: the shared step count and each
worker's private register holding the value it last read. -/
def UpdSt : Type := ℕ × (ℕ → ℕ)

/-- Execute one (worker, operation) event: readStep copies the shared count
into the worker's register; writeStep stores register + 1 back; the gradient
operations do not touch the step count. -/
def execEvent (st : UpdSt) (ev : ℕ × SyncOp) : UpdSt :=
  match ev.2 with
  | SyncOp.readStep => (st.1, fun w' => if w' = ev.1 then st.1 else st.2 w')
  | SyncOp.writeStep => (st.2 ev.1 + 1, st.2)
  | _ => st

/-- Run a schedule: a schedule is any sequence of events; an interleaving of
W workers each doing M calls is a schedule whose per-worker subsequence of
operations is repProg M. -/
def runEvents (evs : List (ℕ × SyncOp)) (st : UpdSt) : UpdSt :=
  evs.foldl execEvent st

/-- The fully serialized schedule: worker 0 runs its whole program, then
worker 1, and so on. -/
def serializedSchedule (W M : ℕ) : List (ℕ × SyncOp) :=
  (List.range W).flatMap (fun w => workerEvents w M)

/-- A destructive interleaving of two workers each doing one synchronization
call: worker 0 reads the step count, worker 1 then runs its whole call, and
worker 0 finally writes back its stale read — a lost update. -/
def lostUpdateSchedule : List (ℕ × SyncOp) :=
  [(0, SyncOp.zeroGrad), (0, SyncOp.backward), (0, SyncOp.transplant),
   (0, SyncOp.readStep),
   (1, SyncOp.zeroGrad), (1, SyncOp.backward), (1, SyncOp.transplant),
   (1, SyncOp.readStep), (1, SyncOp.writeStep),
   (0, SyncOp.writeStep)]

/-! ## Worker environment-factory selection (A3C constructor, a3c.py
lines 183-200 / a3c_conv.py 234-251) -/

/-- Indices the basic variant can draw for a factory list of length L:
random.randint(0, L - 1), a Python stdlib call whose bounds are both
inclusive. -/
def basicEnvIndexSupport (L : ℕ) : Finset ℕ := Finset.Icc 0 (L - 1)

/-- Indices the conv variant can draw for a factory list of length L:
np.random.randint(0, L - 1), a numpy call whose high bound is exclusive. -/
def convEnvIndexSupport (L : ℕ) : Finset ℕ := Finset.Ico 0 (L - 1)

theorem Rval_snoc (gamma B r : ℚ) (l : List ℚ) :
    Rval gamma B (l ++ [r]) = Rval gamma (r + gamma * B) l := by
  induction l with
  | nil => simp [Rval]
  | cons x xs ih => simp [Rval, ih]

theorem returnsSpec_snoc (gamma B r : ℚ) (l : List ℚ) :
    returnsSpec gamma B (l ++ [r]) =
      returnsSpec gamma (r + gamma * B) l ++ [r + gamma * B] := by
  induction l with
  | nil => simp [returnsSpec, Rval]
  | cons x xs ih =>
      have h : Rval gamma B ((x :: xs) ++ [r]) = Rval gamma (r + gamma * B) (x :: xs) :=
        Rval_snoc gamma B r (x :: xs)
      simp only [List.cons_append] at h
      simp only [List.cons_append, returnsSpec, List.append_eq]
      rw [ih, h]

theorem computeReturnsB_snoc (gamma B r : ℚ) (l : List ℚ) :
    computeReturnsB gamma B (l ++ [r]) =
      computeReturnsB gamma (r + gamma * B) l ++ [r + gamma * B] := by
  simp [computeReturnsB, loopAppend]

theorem computeReturnsB_eq_spec (gamma : ℚ) (br : List ℚ) :
    ∀ B : ℚ, computeReturnsB gamma B br = returnsSpec gamma B br := by
  induction br using List.reverseRecOn with
  | nil => intro B; simp [computeReturnsB, loopAppend, returnsSpec]
  | append_singleton l r ih =>
      intro B
      rw [computeReturnsB_snoc, returnsSpec_snoc, ih]

theorem returnsSpec_length (gamma B : ℚ) (l : List ℚ) :
    (returnsSpec gamma B l).length = l.length := by
  induction l with
  | nil => rfl
  | cons x xs ih => simp [returnsSpec, ih]

theorem returnsSpec_getD (gamma B : ℚ) (l : List ℚ) :
    ∀ i : ℕ, i < l.length →
      (returnsSpec gamma B l).getD i 0 = Rval gamma B (l.drop i) := by
  induction l with
  | nil => intro i h; simp at h
  | cons x xs ih =>
      intro i h
      cases i with
      | zero => simp [returnsSpec]
      | succ j =>
          simp only [returnsSpec, List.getD_cons_succ, List.drop_succ_cons]
          exact ih j (by simpa using h)

theorem Rval_closed (gamma B : ℚ) (l : List ℚ) :
    Rval gamma B l =
      Finset.sum (Finset.range l.length) (fun j => gamma ^ j * l.getD j 0)
        + gamma ^ l.length * B := by
  induction l with
  | nil => simp [Rval]
  | cons x xs ih =>
      simp only [Rval, ih, List.length_cons]
      rw [Finset.sum_range_succ']
      simp only [List.getD_cons_succ, List.getD_cons_zero, pow_zero, one_mul]
      rw [mul_add, Finset.mul_sum]
      have hsum : ∀ j ∈ Finset.range xs.length,
          gamma * (gamma ^ j * xs.getD j 0) = gamma ^ (j + 1) * xs.getD j 0 := by
        intro j _
        ring
      rw [Finset.sum_congr rfl hsum]
      ring

/-! ## Helper lemmas for the loss function -/

theorem zip3_length_eq {α β γ δ ε : Type} (f : α → β → γ → δ)
    (g : α → β → γ → ε) :
    ∀ (as : List α) (bs : List β) (cs : List γ),
      (zip3 f as bs cs).length = (zip3 g as bs cs).length := by
  intro as
  induction as with
  | nil => intro bs cs; cases bs <;> cases cs <;> rfl
  | cons a as ih =>
      intro bs cs
      cases bs with
      | nil => cases cs <;> rfl
      | cons b bs =>
          cases cs with
          | nil => rfl
          | cons c cs => simp [zip3, ih]

theorem dsum_zip3_pair {α β γ : Type} (f g : α → β → γ → ℚ) :
    ∀ (as : List α) (bs : List β) (cs : List γ),
      dsum (zip3 (fun a b c => ((f a b c, g a b c) : Dual)) as bs cs) =
        ((zip3 f as bs cs).sum, (zip3 g as bs cs).sum) := by
  intro as
  induction as with
  | nil => intro bs cs; cases bs <;> cases cs <;> simp [zip3, dsum]
  | cons a as ih =>
      intro bs cs
      cases bs with
      | nil => simp [zip3, dsum]
      | cons b bs =>
          cases cs with
          | nil => simp [zip3, dsum]
          | cons c cs => simp [zip3, dsum, dadd, ih]

theorem loss_terms_eq :
    ∀ (v_t : List ℚ) (values logps : List Dual),
      List.zipWith dadd
        ((List.zipWith (fun t v => dsub (dconst t) v) v_t values).map
          (fun x => dmul x x))
        ((List.zipWith (fun lp x => dmul lp (detach x)) logps
          (List.zipWith (fun t v => dsub (dconst t) v) v_t values)).map dneg)
      = zip3 (fun t v lp => ((lossVal t v lp, lossDeriv t v lp) : Dual))
          v_t values logps := by
  intro v_t
  induction v_t with
  | nil => intro values logps; cases values <;> cases logps <;> rfl
  | cons t ts ih =>
      intro values logps
      cases values with
      | nil => cases logps <;> rfl
      | cons v vs =>
          cases logps with
          | nil => rfl
          | cons lp lps =>
              have hhead :
                  dadd (dmul (dsub (dconst t) v) (dsub (dconst t) v))
                    (dneg (dmul lp (detach (dsub (dconst t) v))))
                  = ((lossVal t v lp, lossDeriv t v lp) : Dual) := by
                simp only [dadd, dmul, dsub, dneg, dconst, detach, lossVal,
                  lossDeriv, advTerm]
                rw [Prod.mk.injEq]
                constructor <;> ring
              simp only [List.zipWith_cons_cons, List.map_cons, zip3]
              rw [ih, hhead]

/-! ## Helper lemmas for the worker loop -/

theorem runLoop_buf_pos {σ : Type} (env : σ → ℕ → σ × ℚ × Bool)
    (policy : σ → ℕ) (delay n_actions : ℕ) :
    ∀ (fuel : ℕ) (st : EpState σ),
      (∀ e ∈ st.syncEvents, 0 < e.bufLen) →
      ∀ e ∈ (runLoop env policy delay n_actions fuel st).syncEvents,
        0 < e.bufLen := by
  intro fuel
  induction fuel with
  | zero => intro st h; simpa [runLoop] using h
  | succ n ih =>
      intro st h
      rw [runLoop]
      split
      · split
        · intro e he
          simp only [List.mem_append, List.mem_singleton] at he
          rcases he with he | he
          · exact h e he
          · subst he; simp
        · apply ih
          intro e he
          simp only [List.mem_append, List.mem_singleton] at he
          rcases he with he | he
          · exact h e he
          · subst he; simp
      · apply ih
        intro e he
        exact h e he

theorem runLoop_no_align {σ : Type} (env : σ → ℕ → σ × ℚ × Bool)
    (policy : σ → ℕ) (delay n_actions : ℕ)
    (hdone : ∀ s a, (env s a).2.2 = false) :
    ∀ (fuel : ℕ) (st : EpState σ),
      (∀ j, j < fuel → (st.thread_step + j) % delay ≠ 0) →
      (runLoop env policy delay n_actions fuel st).syncEvents = st.syncEvents ∧
      (runLoop env policy delay n_actions fuel st).episode_step =
        st.episode_step + fuel := by
  intro fuel
  induction fuel with
  | zero => intro st _; simp [runLoop]
  | succ n ih =>
      intro st h
      have h0 : st.thread_step % delay ≠ 0 := by
        have := h 0 (Nat.succ_pos n)
        simpa using this
      have ihs := ih
        { state := (env st.state (actionSentToEnv (policy st.state) n_actions)).1,
          buffer := st.buffer ++ [(st.state, policy st.state,
            (env st.state (actionSentToEnv (policy st.state) n_actions)).2.1)],
          thread_step := st.thread_step + 1,
          episode_step := st.episode_step + 1,
          episode_reward := st.episode_reward +
            (env st.state (actionSentToEnv (policy st.state) n_actions)).2.1,
          syncEvents := st.syncEvents }
        (by
          intro j hj
          show (st.thread_step + 1 + j) % delay ≠ 0
          have h2 : st.thread_step + 1 + j = st.thread_step + (j + 1) := by omega
          rw [h2]
          exact h (j + 1) (by omega))
      rw [runLoop]
      simp only [hdone, Bool.or_false, beq_iff_eq, Bool.false_eq_true, if_false]
      rw [if_neg h0]
      refine ⟨ihs.1, ?_⟩
      rw [ihs.2]
      show st.episode_step + 1 + n = st.episode_step + (n + 1)
      omega

/-! ## Helper lemmas for the shared-update machine -/

theorem runEvents_append (a b : List (ℕ × SyncOp)) (st : UpdSt) :
    runEvents (a ++ b) st = runEvents b (runEvents a st) := by
  simp [runEvents, List.foldl_append]

theorem runWorkerEvents (w : ℕ) :
    ∀ (M : ℕ) (st : UpdSt), (runEvents (workerEvents w M) st).1 = st.1 + M := by
  intro M
  induction M with
  | zero => intro st; rfl
  | succ M ih =>
      intro st
      have hsplit : workerEvents w (M + 1) =
          (syncUpdateOps.map (fun op => (w, op))) ++ workerEvents w M := by
        simp [workerEvents, repProg]
      rw [hsplit, runEvents_append]
      have hblock : runEvents (syncUpdateOps.map (fun op => (w, op))) st =
          (st.1 + 1, fun w' => if w' = w then st.1 else st.2 w') := by
        simp [runEvents, execEvent, syncUpdateOps]
      rw [hblock, ih]
      show st.1 + 1 + M = st.1 + (M + 1)
      omega

theorem runManyEvents :
    ∀ (ws : List ℕ) (M : ℕ) (st : UpdSt),
      (runEvents (ws.flatMap (fun w => workerEvents w M)) st).1 =
        st.1 + ws.length * M := by
  intro ws
  induction ws with
  | nil => intro M st; simp [runEvents]
  | cons w ws ih =>
      intro M st
      rw [List.flatMap_cons, runEvents_append, ih, runWorkerEvents]
      show st.1 + M + ws.length * M = st.1 + (w :: ws).length * M
      simp [List.length_cons]
      ring

theorem getD_drop (l : List ℚ) :
    ∀ i j : ℕ, (l.drop i).getD j 0 = l.getD (i + j) 0 := by
  induction l with
  | nil => intro i j; simp
  | cons x xs ih =>
      intro i j
      cases i with
      | zero => simp
      | succ i =>
          rw [List.drop_succ_cons, ih i j]
          have : i.succ + j = (i + j) + 1 := by omega
          rw [this, List.getD_cons_succ]

/-! ## The claims -/

/-- C1: for every reward sequence, discount factor gamma, terminal flag and
bootstrap value V, the return estimator inside A3C.sync produces a sequence
of the same length whose i-th element equals the discounted sum
r_i + gamma * r_(i+1) + ... + gamma^(k-1-i) * r_(k-1) + gamma^(k-i) * B,
where B = 0 if terminal and B = V otherwise; in particular for rewards
[1, 1, 1], gamma = 1/2, terminal, the returns are [7/4, 3/2, 1]. -/
theorem c1_return_estimator (gamma V : ℚ) (done : Bool) (br : List ℚ) :
    (computeReturns gamma done V br).length = br.length ∧
    (∀ i : ℕ, i < br.length →
      (computeReturns gamma done V br).getD i 0 =
        Finset.sum (Finset.range (br.length - i))
          (fun j => gamma ^ j * br.getD (i + j) 0)
          + gamma ^ (br.length - i) * (if done then 0 else V)) ∧
    computeReturns (1/2) true 0 [1, 1, 1] = [7/4, 3/2, 1] := by
  have hspec := computeReturnsB_eq_spec gamma br (if done then 0 else V)
  refine ⟨?_, ?_, ?_⟩
  · show (computeReturnsB gamma (if done then 0 else V) br).length = br.length
    rw [hspec, returnsSpec_length]
  · intro i hi
    show (computeReturnsB gamma (if done then 0 else V) br).getD i 0 = _
    rw [hspec, returnsSpec_getD gamma (if done then 0 else V) br i hi,
      Rval_closed, List.length_drop]
    congr 1
    apply Finset.sum_congr rfl
    intro j _
    rw [getD_drop]
  · norm_num [computeReturns, computeReturnsB, loopAppend]

/-- C1 witness: the general statement applied at gamma = 1/2, terminal,
rewards [1, 1, 1], index 0. -/
theorem c1_return_estimator_witness :
    (0 : ℕ) < ([1, 1, 1] : List ℚ).length ∧
    (computeReturns (1/2) true 0 [1, 1, 1]).getD 0 0 =
      Finset.sum (Finset.range (([1, 1, 1] : List ℚ).length - 0))
        (fun j => (1/2 : ℚ) ^ j * ([1, 1, 1] : List ℚ).getD (0 + j) 0)
        + (1/2 : ℚ) ^ (([1, 1, 1] : List ℚ).length - 0) *
          (if (true : Bool) then 0 else 0) :=
  ⟨by decide, (c1_return_estimator (1/2) 0 true [1, 1, 1]).2.1 0 (by decide)⟩

/-- C2 counterexample: the claim says steps 4-6 of the synchronization are
guarded by a single lock shared across all workers so that the shared step
count after W workers times M updates is exactly W * M.  The code's update
section contains no lock operation at all, and there is an interleaving of
2 workers times 1 update — each worker's own operation subsequence being
exactly its program — whose final step count is 1, not 2 * 1: a lost
update. -/
theorem c2_sync_lock_counterexample :
    ¬ guardedByLock syncUpdateOps ∧
    (lostUpdateSchedule.filter (fun e => e.1 == 0)).map Prod.snd = repProg 1 ∧
    (lostUpdateSchedule.filter (fun e => e.1 == 1)).map Prod.snd = repProg 1 ∧
    (runEvents lostUpdateSchedule (0, fun _ => 0)).1 = 1 ∧ (1 : ℕ) ≠ 2 * 1 := by
  refine ⟨?_, by decide, by decide, by decide, by decide⟩
  unfold guardedByLock
  decide

/-- C2 amended: steps 4-6 of A3C.sync run without any lock (the operation
sequence holds no acquire/release), so mutual exclusion is not provided by
the code; when the workers' synchronization calls happen to be serialized,
the shared optimizer step count after W workers times M updates each is
exactly W * M, but unguarded interleavings can lose updates. -/
theorem c2_sync_lock_amended :
    ¬ guardedByLock syncUpdateOps ∧
    ∀ W M : ℕ, (runEvents (serializedSchedule W M) (0, fun _ => 0)).1 = W * M := by
  constructor
  · unfold guardedByLock
    decide
  · intro W M
    have h := runManyEvents (List.range W) M (0, fun _ => 0)
    simpa [serializedSchedule, List.length_range] using h

/-- C3 counterexample: the claim says the coordinator's result-draining loop
dequeues exactly N shutdown sentinels for N workers before stopping.  With
N = 2 workers and the arrival stream [some record, sentinel, sentinel], the
loop stops having dequeued exactly 1 sentinel, not 2: the loop body breaks
on the first None it receives. -/
theorem c3_sentinel_counterexample :
    drainLoop (R := ℕ) [some 7, none, none] = ([7], 1) ∧ (1 : ℕ) ≠ 2 := by
  decide

/-- C3 amended: the coordinator's result-draining loop terminates upon
dequeuing the FIRST shutdown sentinel, regardless of the worker count: it
records exactly the result records that precede the first sentinel in the
arrival stream and consumes exactly one sentinel. -/
theorem c3_sentinel_amended {R : Type} (pre : List R) (suffix : List (Option R)) :
    drainLoop (pre.map some ++ none :: suffix) = (pre, 1) := by
  induction pre with
  | nil => rfl
  | cons x xs ih => simp [drainLoop, ih]

/-- C4 counterexample: the claim says an episode that reaches the max_length
cap without done triggers a synchronization at the cap and is not counted
(no counter increment, no result record).  With max_length = 3, delay = 2,
an environment that never reports done, and initial thread step 1, the
episode reaches the cap with its only synchronization at episode step 1 —
none at the cap step 2 — yet the episode counter is incremented from 0 to 1
and one result record is enqueued. -/
theorem c4_cap_counterexample :
    (workerEpisodeStep (fun (_ : Unit) (_ : ℕ) => ((), (0 : ℚ), false))
      (fun _ => 0) 2 1 3 () 1 0 []).1.episode_step = 3 ∧
    (workerEpisodeStep (fun (_ : Unit) (_ : ℕ) => ((), (0 : ℚ), false))
      (fun _ => 0) 2 1 3 () 1 0 []).1.syncEvents = [⟨false, 2, 1⟩] ∧
    (workerEpisodeStep (fun (_ : Unit) (_ : ℕ) => ((), (0 : ℚ), false))
      (fun _ => 0) 2 1 3 () 1 0 []).2.1 = 1 ∧
    (workerEpisodeStep (fun (_ : Unit) (_ : ℕ) => ((), (0 : ℚ), false))
      (fun _ => 0) 2 1 3 () 1 0 []).2.2.length = 1 := by
  refine ⟨by decide, by decide, by decide, by decide⟩

/-- C4 amended: an episode whose step count reaches the max_length cap
without the environment reporting done exits the episode loop without any
synchronization being forced at the cap (here: with no step alignment and no
done, no synchronization happens at all and the leftover buffer is
discarded), and the episode IS counted as a completion: the checkpoint
callback runs unconditionally, incrementing the global episode counter by
one and enqueuing one result record for the episode. -/
theorem c4_cap_amended {σ : Type} (env : σ → ℕ → σ × ℚ × Bool)
    (policy : σ → ℕ) (delay n_actions max_length : ℕ) (s0 : σ) (t0 : ℕ)
    (counter : ℕ) (queue : List ResultRecord)
    (hdone : ∀ s a, (env s a).2.2 = false)
    (halign : ∀ j, j < max_length → (t0 + j) % delay ≠ 0) :
    (workerEpisodeStep env policy delay n_actions max_length s0 t0 counter
      queue).1.episode_step = max_length ∧
    (workerEpisodeStep env policy delay n_actions max_length s0 t0 counter
      queue).1.syncEvents = [] ∧
    (workerEpisodeStep env policy delay n_actions max_length s0 t0 counter
      queue).2.1 = counter + 1 ∧
    (workerEpisodeStep env policy delay n_actions max_length s0 t0 counter
      queue).2.2 = queue ++
        [⟨(workerEpisodeStep env policy delay n_actions max_length s0 t0
            counter queue).1.episode_reward, max_length⟩] := by
  have h := runLoop_no_align env policy delay n_actions hdone max_length
    ⟨s0, [], t0, 0, 0, []⟩
    (by
      intro j hj
      show (t0 + j) % delay ≠ 0
      exact halign j hj)
  have hstep : (runLoop env policy delay n_actions max_length
      (⟨s0, [], t0, 0, 0, []⟩ : EpState σ)).episode_step = max_length := by
    rw [h.2]
    show 0 + max_length = max_length
    omega
  refine ⟨hstep, h.1, rfl, ?_⟩
  show queue ++ [⟨(runLoop env policy delay n_actions max_length
      (⟨s0, [], t0, 0, 0, []⟩ : EpState σ)).episode_reward,
      (runLoop env policy delay n_actions max_length
      (⟨s0, [], t0, 0, 0, []⟩ : EpState σ)).episode_step⟩] = _
  rw [hstep]
  rfl

/-- C4 amended witness: the amended statement applied to a never-done
environment with delay 20, cap 3, initial thread step 1. -/
theorem c4_cap_amended_witness :
    (∀ (s : Unit) (a : ℕ),
      ((fun (_ : Unit) (_ : ℕ) => ((), (0 : ℚ), false)) s a).2.2 = false) ∧
    (∀ j, j < 3 → (1 + j) % 20 ≠ 0) ∧
    (workerEpisodeStep (fun (_ : Unit) (_ : ℕ) => ((), (0 : ℚ), false))
      (fun _ => 0) 20 1 3 () 1 0 []).1.episode_step = 3 :=
  ⟨fun _ _ => rfl, by intro j hj; omega,
   (c4_cap_amended (fun (_ : Unit) (_ : ℕ) => ((), (0 : ℚ), false))
     (fun _ => 0) 20 1 3 () 1 0 [] (fun _ _ => rfl)
     (by intro j hj; omega)).1⟩

/-- C5: for every batch of predicted values, action log-probabilities and
target returns with matching lengths, loss_func returns the mean over the
batch of (value loss + policy loss), where advantage = target - value,
value loss = advantage squared and policy loss = -log_prob * advantage; on
the derivative component the advantage is gradient-blocked in the policy
term (no v.2 contribution appears there, only lp.2 * advantage) but not in
the value term (which contributes -2 * advantage * v.2). -/
theorem c5_loss_func (values logps : List Dual) (v_t : List ℚ)
    (h1 : values.length = v_t.length) (h2 : logps.length = v_t.length) :
    loss_func values logps v_t =
      (qmean (zip3 lossVal v_t values logps),
       qmean (zip3 lossDeriv v_t values logps)) := by
  calc loss_func values logps v_t
      = dmean (zip3 (fun t v lp => ((lossVal t v lp, lossDeriv t v lp) : Dual))
          v_t values logps) := by
        show dmean _ = _
        rw [loss_terms_eq]
    _ = (qmean (zip3 lossVal v_t values logps),
         qmean (zip3 lossDeriv v_t values logps)) := by
        simp only [dmean, qmean, dsum_zip3_pair]
        rw [Prod.mk.injEq]
        constructor
        · rw [zip3_length_eq
            (fun t v lp => ((lossVal t v lp, lossDeriv t v lp) : Dual)) lossVal]
        · rw [zip3_length_eq
            (fun t v lp => ((lossVal t v lp, lossDeriv t v lp) : Dual)) lossDeriv]

/-- C5 witness: the statement applied to the one-element batch with
predicted value (2, 1), log-probability (-1, 3), target 5. -/
theorem c5_loss_func_witness :
    ([((2 : ℚ), (1 : ℚ))] : List Dual).length = ([5] : List ℚ).length ∧
    ([((-1 : ℚ), (3 : ℚ))] : List Dual).length = ([5] : List ℚ).length ∧
    loss_func [((2 : ℚ), (1 : ℚ))] [((-1 : ℚ), (3 : ℚ))] [5] =
      (qmean (zip3 lossVal [5] [((2 : ℚ), (1 : ℚ))] [((-1 : ℚ), (3 : ℚ))]),
       qmean (zip3 lossDeriv [5] [((2 : ℚ), (1 : ℚ))] [((-1 : ℚ), (3 : ℚ))])) :=
  ⟨rfl, rfl, c5_loss_func [((2 : ℚ), (1 : ℚ))] [((-1 : ℚ), (3 : ℚ))] [5] rfl rfl⟩

/-- C6: immediately after every synchronization call — in both variants —
every parameter of the calling worker's local network equals the
corresponding shared network parameter as it stands after that call's
optimizer step: A3C.sync ends with
local_network.load_state_dict(global_network.state_dict()). -/
theorem c6_local_freshness (gamma : ℚ) (computeGrad : ℚ → List ℚ → List ℚ)
    (optStep : List ℚ → List ℚ → List ℚ) (inp : SyncInput) (st : SyncSt) :
    ((syncBasic gamma computeGrad optStep inp st).1.localParams =
      (syncBasic gamma computeGrad optStep inp st).1.sharedParams) ∧
    ((syncConv gamma computeGrad optStep inp st).1.localParams =
      (syncConv gamma computeGrad optStep inp st).1.sharedParams) :=
  ⟨rfl, rfl⟩

/-- C7 counterexample: the claim says every synchronization call returns the
scalar loss to the calling worker.  The basic variant's A3C.sync has no
return statement: at a concrete input its returned value is Python's None,
not the loss it computed. -/
theorem c7_sync_return_counterexample :
    (syncBasic (9/10) (fun _ p => p) (fun p _ => p)
        ⟨true, 0, [1], [0], [0]⟩ ⟨[], [], []⟩).2 ≠
      some (totalLoss [0] [0]
        (computeReturnsB (9/10) (bootstrapR ⟨true, 0, [1], [0], [0]⟩) [1])) := by
  simp [syncBasic]

/-- C7 amended: the richer (conv) variant's synchronization call returns the
tuple (loss, mean value-loss, mean policy-loss, mean advantage) computed by
loss_func on the trajectory's targets; the basic variant's call returns
nothing (None) — its loss is not reported back to the worker. -/
theorem c7_sync_return_amended (gamma : ℚ) (computeGrad : ℚ → List ℚ → List ℚ)
    (optStep : List ℚ → List ℚ → List ℚ) (inp : SyncInput) (st : SyncSt) :
    (syncConv gamma computeGrad optStep inp st).2 =
      loss_func_conv inp.values inp.logps
        (computeReturnsB gamma (bootstrapR inp) inp.rewards) ∧
    (syncBasic gamma computeGrad optStep inp st).2 = none :=
  ⟨rfl, rfl⟩

/-- C8: the action index passed to env.step always lies in [0, n_actions):
a sampled index that is n_actions or larger is mapped to the default index 0
before being passed to the environment. -/
theorem c8_action_clamp (action n_actions : ℕ) (h : 0 < n_actions) :
    actionSentToEnv action n_actions < n_actions ∧
    (n_actions ≤ action → actionSentToEnv action n_actions = 0) := by
  unfold actionSentToEnv
  by_cases hlt : action < n_actions
  · rw [if_pos hlt]
    exact ⟨hlt, fun hle => absurd hlt (by omega)⟩
  · rw [if_neg hlt]
    exact ⟨h, fun _ => rfl⟩

/-- C8 witness: the statement applied to sampled action 5 with 3 available
actions. -/
theorem c8_action_clamp_witness :
    (0 : ℕ) < 3 ∧ actionSentToEnv 5 3 < 3 ∧ (3 ≤ 5 → actionSentToEnv 5 3 = 0) :=
  ⟨by decide, c8_action_clamp 5 3 (by decide)⟩

/-- C9: the claim says each worker's environment factory is drawn uniformly
from the full list, every element including the last being selectable.  The
basic variant uses Python's random.randint(0, L - 1), whose bounds are both
inclusive, so index L - 1 is selectable; the conv variant uses numpy's
np.random.randint(0, L - 1), whose high bound is exclusive, so for a list of
length 2 the last factory (index 1) is never selected — the conv variant's
support differs from the full index range the claim requires. -/
theorem c9_env_selection_bug :
    (1 : ℕ) ∈ basicEnvIndexSupport 2 ∧
    (1 : ℕ) ∉ convEnvIndexSupport 2 ∧
    convEnvIndexSupport 2 ≠ basicEnvIndexSupport 2 := by
  decide

/-- C10: every synchronization call made by the worker's episode loop
happens with a non-empty trajectory buffer: the call site is reached only
immediately after a (state, action, reward) triple is appended, so the
buffered-action access and the state stacking inside the protocol never see
an empty sequence. -/
theorem c10_nonempty_trajectory {σ : Type} (env : σ → ℕ → σ × ℚ × Bool)
    (policy : σ → ℕ) (delay n_actions max_length : ℕ) (s0 : σ) (t0 : ℕ) :
    ∀ e ∈ (runEpisode env policy delay n_actions max_length s0 t0).syncEvents,
      0 < e.bufLen := by
  apply runLoop_buf_pos
  intro e he
  simp at he

/-- C10 witness: an episode against an immediately-terminal environment
makes exactly one synchronization call, with one buffered transition. -/
theorem c10_nonempty_trajectory_witness :
    SyncEvent.mk true 1 0 ∈
      (runEpisode (fun (_ : Unit) (_ : ℕ) => ((), (5 : ℚ), true))
        (fun _ => 0) 20 1 4 () 1).syncEvents ∧
    0 < (SyncEvent.mk true 1 0).bufLen :=
  ⟨by decide,
   c10_nonempty_trajectory (fun (_ : Unit) (_ : ℕ) => ((), (5 : ℚ), true))
     (fun _ => 0) 20 1 4 () 1 ⟨true, 1, 0⟩ (by decide)⟩
